import Mathlib

/-
  Verification development for the ape-dts replication engine core.

  Shallow embedding of the row merger (dt-parallelizer/src/rdb_merger.rs),
  the partition and Redis parallelizers, the pipeline loop
  (dt-pipeline/src/base_pipeline.rs) and the PG CDC extractor
  (dt-connector/src/extractor/pg/pg_cdc_extractor.rs).

  Types whose defining module is not part of the covered sources
  (ColValue, Position, RowData hashing, the Redis key parser, the row
  partitioner) are modelled from the specification; each such definition
  carries a doc comment saying so.
-/

namespace ApeDts

/-- Modelled from the spec: the tagged column value (dt-meta col_value.rs is
not among the covered sources).  Only the shapes the claims exercise are
included; the distinguished None value is its own constructor. -/
inductive ColValue where
  | none
  | long (v : Int)
  | str (v : String)
  deriving DecidableEq

/-- Modelled from the spec: componentwise equality of column values, with the
spec rule that None does not equal None for key-collision purposes. -/
def cvEq : ColValue → ColValue → Bool
  | ColValue.none, ColValue.none => false
  | ColValue.long a, ColValue.long b => a == b
  | ColValue.str a, ColValue.str b => a == b
  | _, _ => false

/-- Equality of optional column values, mirroring equality on Rust
Option: both absent compares equal, present values compare with cvEq. -/
def optCvEq : Option ColValue → Option ColValue → Bool
  | Option.none, Option.none => true
  | some a, some b => cvEq a b
  | _, _ => false

/-- Row change kind (dt-meta row_type.rs). -/
inductive RowType where
  | insert
  | update
  | delete
  deriving DecidableEq

/-- A column-name to column-value mapping (HashMap of String to ColValue in
the source), embedded as an association list. -/
abbrev CvMap := List (String × ColValue)

/-- Lookup of a column in a CvMap (HashMap::get). -/
def CvMap.get : CvMap → String → Option ColValue
  | [], _ => Option.none
  | (k, v) :: rest, c => if k == c then some v else CvMap.get rest c

/-- Insertion into a CvMap, replacing an existing binding (HashMap::insert). -/
def CvMap.insert (m : CvMap) (k : String) (v : ColValue) : CvMap :=
  if m.any (fun p => p.1 == k) then
    m.map (fun p => if p.1 == k then (k, v) else p)
  else
    m ++ [(k, v)]

/-- A single row-level change (dt-meta row_data.rs, fields as used by the
covered sources: schema, tb, row_type, before, after). -/
structure RowData where
  schema : String
  tb : String
  row_type : RowType
  before : Option CvMap
  after : Option CvMap
  deriving DecidableEq

/-- Modelled from the spec: the slice of per-table metadata the merger
reads: the chosen id columns and the unique-key map (the registry module is
not among the covered sources). -/
structure RdbTbMeta where
  id_cols : List String
  key_map : List (String × List String)
  deriving DecidableEq

/-- Modelled from the spec: the 128-bit id-col digest of a row
(RowData::get_hash_code, not among the covered sources).  The digest of the
ordered id-col values is an abstract function hashFn; a missing or None key
column yields the reserved unhashable value 0.  The hashed image is the
after image for an Insert and the before image otherwise, matching the
convention the covered sources use for key columns. -/
def RowData.get_hash_code (row : RowData) (hashFn : List ColValue → Nat)
    (tb_meta : RdbTbMeta) : Nat :=
  let image : CvMap :=
    match row.row_type with
    | RowType.insert => row.after.getD []
    | _ => row.before.getD []
  let vals : List (Option ColValue) := tb_meta.id_cols.map (CvMap.get image)
  let anyNull : Bool := vals.any (fun v =>
    match v with
    | Option.none => true
    | some ColValue.none => true
    | some _ => false)
  if anyNull then 0 else hashFn (vals.map (fun v => v.getD ColValue.none))

/-- The per-table hash maps keyed by the id-col digest
(HashMap of u128 to RowData), embedded as an association list. -/
abbrev HMap := List (Nat × RowData)

/-- Map lookup (HashMap::get). -/
def HMap.get : HMap → Nat → Option RowData
  | [], _ => Option.none
  | (k, v) :: rest, c => if k == c then some v else HMap.get rest c

/-- Map insertion, replacing an existing binding (HashMap::insert). -/
def HMap.insert (m : HMap) (k : Nat) (v : RowData) : HMap :=
  if m.any (fun p => p.1 == k) then
    m.map (fun p => if p.1 == k then (k, v) else p)
  else
    m ++ [(k, v)]

/-- Map removal (HashMap::remove). -/
def HMap.remove (m : HMap) (k : Nat) : HMap :=
  m.filter (fun p => p.1 != k)

/-- Per-table merge state of the row merger (rdb_merger.rs,
RdbTbMergedData). -/
structure RdbTbMergedData where
  delete_rows : HMap
  insert_rows : HMap
  unmerged_rows : List RowData
  deriving DecidableEq

/-- RdbTbMergedData::new. -/
def RdbTbMergedData.new : RdbTbMergedData :=
  { delete_rows := [], insert_rows := [], unmerged_rows := [] }

namespace RdbMerger

/-- RdbMerger::check_uk_changed (rdb_merger.rs): an update changed its
unique key when any id-col value differs between before and after. -/
def check_uk_changed (id_cols : List String) (row_data : RowData) : Bool :=
  let before := row_data.before.getD []
  let after := row_data.after.getD []
  id_cols.any (fun col => !(optCvEq (CvMap.get before col) (CvMap.get after col)))

/-- RdbMerger::check_collision (rdb_merger.rs): the buffer holds a row at
this hash whose id-col values differ from those of the incoming row. -/
def check_collision (buffer : HMap) (id_cols : List String) (row_data : RowData)
    (hash_code : Nat) : Bool :=
  match HMap.get buffer hash_code with
  | Option.none => false
  | some exist =>
    let col_values : CvMap :=
      match row_data.row_type with
      | RowType.insert => row_data.after.getD []
      | _ => row_data.before.getD []
    let exist_col_values : CvMap :=
      match exist.row_type with
      | RowType.insert => exist.after.getD []
      | _ => exist.before.getD []
    id_cols.any (fun col =>
      !(optCvEq (CvMap.get col_values col) (CvMap.get exist_col_values col)))

/-- RdbMerger::split_update_row_data (rdb_merger.rs): split an update into
its delete image and insert image. -/
def split_update_row_data (row_data : RowData) : RowData × RowData :=
  ({ row_type := RowType.delete, schema := row_data.schema, tb := row_data.tb,
     before := row_data.before, after := Option.none },
   { row_type := RowType.insert, schema := row_data.schema, tb := row_data.tb,
     before := Option.none, after := row_data.after })

/-- RdbMerger::get_hash_code (rdb_merger.rs): 0 when the table has no
unique key, else the id-col digest of the row. -/
def get_hash_code (hashFn : List ColValue → Nat) (tb_meta : RdbTbMeta)
    (row_data : RowData) : Nat :=
  if tb_meta.key_map.isEmpty then 0 else row_data.get_hash_code hashFn tb_meta

/-- RdbMerger::merge_row_data (rdb_merger.rs): fold one row into the
per-table merge state.  The table metadata is the one the meta manager
returns for this table, passed explicitly; the id-col digest is hashFn. -/
def merge_row_data (hashFn : List ColValue → Nat) (tb_meta : RdbTbMeta)
    (merged : RdbTbMergedData) (row_data : RowData) : RdbTbMergedData :=
  if !merged.unmerged_rows.isEmpty then
    { merged with unmerged_rows := merged.unmerged_rows ++ [row_data] }
  else
    let hash_code := get_hash_code hashFn tb_meta row_data
    if hash_code == 0 then
      { merged with unmerged_rows := merged.unmerged_rows ++ [row_data] }
    else
      match row_data.row_type with
      | RowType.delete =>
        if check_collision merged.insert_rows tb_meta.id_cols row_data hash_code
            || check_collision merged.delete_rows tb_meta.id_cols row_data hash_code then
          { merged with unmerged_rows := merged.unmerged_rows ++ [row_data] }
        else
          { merged with
            insert_rows := merged.insert_rows.remove hash_code,
            delete_rows := merged.delete_rows.insert hash_code row_data }
      | RowType.update =>
        if check_uk_changed tb_meta.id_cols row_data then
          { merged with unmerged_rows := merged.unmerged_rows ++ [row_data] }
        else
          let split := split_update_row_data row_data
          let del := split.1
          let ins := split.2
          let insert_hash_code := get_hash_code hashFn tb_meta ins
          if check_collision merged.insert_rows tb_meta.id_cols ins insert_hash_code
              || check_collision merged.delete_rows tb_meta.id_cols del hash_code then
            let combined : RowData :=
              { row_type := RowType.update, schema := del.schema, tb := del.tb,
                before := del.before, after := ins.after }
            { merged with unmerged_rows := merged.unmerged_rows ++ [combined] }
          else
            { merged with
              delete_rows := merged.delete_rows.insert hash_code del,
              insert_rows := merged.insert_rows.insert insert_hash_code ins }
      | RowType.insert =>
        if check_collision merged.insert_rows tb_meta.id_cols row_data hash_code then
          { merged with unmerged_rows := merged.unmerged_rows ++ [row_data] }
        else
          { merged with insert_rows := merged.insert_rows.insert hash_code row_data }

/-- The per-table loop of RdbMerger::merge (rdb_merger.rs): rows of one
table fold through merge_row_data in arrival order. -/
def merge_table_rows (hashFn : List ColValue → Nat) (tb_meta : RdbTbMeta)
    (merged : RdbTbMergedData) (rows : List RowData) : RdbTbMergedData :=
  rows.foldl (merge_row_data hashFn tb_meta) merged

end RdbMerger

/-- Table metadata of scenario S1: single primary-key column pk. -/
def metaPk : RdbTbMeta :=
  { id_cols := ["pk"], key_map := [("primary", ["pk"])] }

/-- S1 event 1: Insert with pk = 1, v = a. -/
def rowI1 : RowData :=
  { schema := "s", tb := "t", row_type := RowType.insert,
    before := Option.none,
    after := some [("pk", ColValue.long 1), ("v", ColValue.str "a")] }

/-- S1 event 2: Update pk = 1, v from a to b. -/
def rowU1 : RowData :=
  { schema := "s", tb := "t", row_type := RowType.update,
    before := some [("pk", ColValue.long 1), ("v", ColValue.str "a")],
    after := some [("pk", ColValue.long 1), ("v", ColValue.str "b")] }

/-- S1 event 3: Update pk = 1, v from b to c. -/
def rowU2 : RowData :=
  { schema := "s", tb := "t", row_type := RowType.update,
    before := some [("pk", ColValue.long 1), ("v", ColValue.str "b")],
    after := some [("pk", ColValue.long 1), ("v", ColValue.str "c")] }

/-- A concrete positive digest function used for concrete evaluations. -/
def hashOne : List ColValue → Nat := fun _ => 1

/-- Claim C1, counterexample: on the stream Insert, Update, Update of S1 the
merger leaves the delete image of the last update in delete_rows, so
delete_rows is not empty as the claim states. -/
theorem c1_counterexample :
    (RdbMerger.merge_table_rows hashOne metaPk RdbTbMergedData.new
      [rowI1, rowU1, rowU2]).delete_rows ≠ [] := by
  decide

/-- Claim C1, amended: merging the S1 stream yields unmerged_rows empty,
insert_rows with exactly one entry at hash(1) equal to Insert with pk = 1,
v = c, and delete_rows with exactly one entry at hash(1) equal to the
delete image of the last update (before pk = 1, v = b), for every digest
function that maps the key tuple (1) to a nonzero hash. -/
theorem c1_merge_collapse (hashFn : List ColValue → Nat)
    (hne : hashFn [ColValue.long 1] ≠ 0) :
    RdbMerger.merge_table_rows hashFn metaPk RdbTbMergedData.new
      [rowI1, rowU1, rowU2] =
    { delete_rows := [(hashFn [ColValue.long 1],
        { schema := "s", tb := "t", row_type := RowType.delete,
          before := some [("pk", ColValue.long 1), ("v", ColValue.str "b")],
          after := Option.none })],
      insert_rows := [(hashFn [ColValue.long 1],
        { schema := "s", tb := "t", row_type := RowType.insert,
          before := Option.none,
          after := some [("pk", ColValue.long 1), ("v", ColValue.str "c")] })],
      unmerged_rows := [] } := by
  have hb : (hashFn [ColValue.long 1] == 0) = false := by
    simp [hne]
  simp [RdbMerger.merge_table_rows, RdbMerger.merge_row_data,
    RdbMerger.get_hash_code, RowData.get_hash_code, RdbMerger.check_collision,
    RdbMerger.check_uk_changed, RdbMerger.split_update_row_data,
    HMap.get, HMap.insert, HMap.remove, CvMap.get, CvMap.insert,
    metaPk, rowI1, rowU1, rowU2, RdbTbMergedData.new, hb, cvEq, optCvEq]

/-- Witness for c1_merge_collapse at the concrete digest hashOne. -/
theorem c1_merge_collapse_witness :
    RdbMerger.merge_table_rows hashOne metaPk RdbTbMergedData.new
      [rowI1, rowU1, rowU2] =
    { delete_rows := [(1,
        { schema := "s", tb := "t", row_type := RowType.delete,
          before := some [("pk", ColValue.long 1), ("v", ColValue.str "b")],
          after := Option.none })],
      insert_rows := [(1,
        { schema := "s", tb := "t", row_type := RowType.insert,
          before := Option.none,
          after := some [("pk", ColValue.long 1), ("v", ColValue.str "c")] })],
      unmerged_rows := [] } :=
  c1_merge_collapse hashOne (by decide)

/-- One unmerged step: when the per-table state already holds unmerged rows,
the next row is appended to unmerged_rows and nothing else changes. -/
theorem merge_row_data_unmerged_step (hashFn : List ColValue → Nat)
    (tb_meta : RdbTbMeta) (st : RdbTbMergedData) (r : RowData)
    (h : st.unmerged_rows ≠ []) :
    RdbMerger.merge_row_data hashFn tb_meta st r =
      { st with unmerged_rows := st.unmerged_rows ++ [r] } := by
  obtain ⟨d, i, u⟩ := st
  cases u with
  | nil => exact absurd rfl h
  | cons a l => simp [RdbMerger.merge_row_data]

/-- Claim C5: once unmerged_rows of a table is non-empty, every subsequently
processed row of that table is appended to unmerged_rows in arrival order,
and neither delete_rows nor insert_rows changes for the rest of the batch. -/
theorem c5_unmerged_monotone (hashFn : List ColValue → Nat)
    (tb_meta : RdbTbMeta) (st : RdbTbMergedData) (rows : List RowData)
    (h : st.unmerged_rows ≠ []) :
    RdbMerger.merge_table_rows hashFn tb_meta st rows =
      { st with unmerged_rows := st.unmerged_rows ++ rows } := by
  induction rows generalizing st with
  | nil => simp [RdbMerger.merge_table_rows]
  | cons r rs ih =>
    have hstep := merge_row_data_unmerged_step hashFn tb_meta st r h
    have hne : ({ st with unmerged_rows := st.unmerged_rows ++ [r] }
        : RdbTbMergedData).unmerged_rows ≠ [] := by
      simp
    calc RdbMerger.merge_table_rows hashFn tb_meta st (r :: rs)
        = RdbMerger.merge_table_rows hashFn tb_meta
            (RdbMerger.merge_row_data hashFn tb_meta st r) rs := rfl
      _ = RdbMerger.merge_table_rows hashFn tb_meta
            { st with unmerged_rows := st.unmerged_rows ++ [r] } rs := by
          rw [hstep]
      _ = { st with unmerged_rows := st.unmerged_rows ++ (r :: rs) } := by
          rw [ih _ hne]
          simp

/-- Witness for c5_unmerged_monotone: a state already holding one unmerged
row absorbs two further rows into the unmerged tail. -/
theorem c5_unmerged_monotone_witness :
    RdbMerger.merge_table_rows hashOne metaPk
      { delete_rows := [], insert_rows := [], unmerged_rows := [rowI1] }
      [rowU1, rowU2] =
    { delete_rows := [], insert_rows := [],
      unmerged_rows := [rowI1, rowU1, rowU2] } :=
  c5_unmerged_monotone hashOne metaPk
    { delete_rows := [], insert_rows := [], unmerged_rows := [rowI1] }
    [rowU1, rowU2] (by decide)

/-- Modelled from the spec: the per-source position sum type (dt-meta
position.rs is not among the covered sources).  Only the variants the
claims exercise are included. -/
inductive Position where
  | none
  | pgCdc (lsn : String) (timestamp : String)
  | redis (repl_id : String) (repl_offset : Nat)
  | kafka (topic : String) (partition : Nat) (offset : Nat)
  deriving DecidableEq

/-- Modelled from the spec: a DDL change payload, opaque to the covered
claims (dt-meta ddl_data.rs is not among the covered sources). -/
structure DdlData where
  query : String
  deriving DecidableEq

/-- Modelled from the spec: a Redis entry as the covered sources read it:
the command name (cmd.get_name), the keys of the command (each mapped to a
cluster slot by the key parser), and the raw-bytes flag (entry.is_raw). -/
structure RedisEntry where
  cmd : String
  keys : List String
  is_raw : Bool
  deriving DecidableEq

/-- The change envelope DtData (dt-meta dt_data.rs). -/
inductive DtData where
  | ddl (ddl_data : DdlData)
  | dml (row_data : RowData)
  | begin
  | commit (xid : String)
  | redis (entry : RedisEntry)
  deriving DecidableEq

/-- DtData::is_ddl (dt-meta dt_data.rs). -/
def DtData.is_ddl : DtData → Bool
  | DtData.ddl _ => true
  | _ => false

/-- A change bundled with its position (dt-meta dt_data.rs, DtItem). -/
structure DtItem where
  dt_data : DtData
  position : Position
  deriving DecidableEq

/-- DtItem::is_ddl (dt-meta dt_data.rs). -/
def DtItem.is_ddl (item : DtItem) : Bool :=
  item.dt_data.is_ddl

/-- The error taxonomy of dt-common as used by the covered sources. -/
inductive Error where
  | extractorError (msg : String)
  | redisCmdError (msg : String)
  | metadataError (msg : String)
  deriving DecidableEq

/-- The item shapes PartitionParallelizer::drain places into the batch:
DML rows and Commits. -/
def keepsDmlOrCommit (item : DtItem) : Bool :=
  match item.dt_data with
  | DtData.dml _ => true
  | DtData.commit _ => true
  | _ => false

namespace PartitionParallelizer

/-- PartitionParallelizer::drain (partition_parallelizer.rs) over the buffer
embedded as the list of queued items, oldest first.  can_be_partitioned of
the row partitioner (not among the covered sources; per the spec it fails
for a row with no unique key or a null key-column value) is the abstract
predicate canPart.  Returns the dispatched batch and the items left
queued. -/
def drain (parallel_size : Nat) (canPart : RowData → Bool) :
    List DtItem → List DtItem × List DtItem
  | [] => ([], [])
  | item :: rest =>
    match item.dt_data with
    | DtData.dml row_data =>
      if decide (parallel_size > 1) && !(canPart row_data) then
        ([item], rest)
      else
        let dr := drain parallel_size canPart rest
        (item :: dr.1, dr.2)
    | DtData.commit _ =>
      let dr := drain parallel_size canPart rest
      (item :: dr.1, dr.2)
    | _ => drain parallel_size canPart rest

/-- PartitionParallelizer::sink_ddl (partition_parallelizer.rs): ignores its
inputs and returns Ok.  The second component records the sinker invocations
made, which are none. -/
def sink_ddl (_data : List DdlData) (_sinkers : List String) :
    Except Error Unit × List String :=
  (Except.ok (), [])

end PartitionParallelizer

/-- The drained prefix characterization of PartitionParallelizer::drain:
the buffer splits into a consumed prefix and the leftover queue, and the
batch is exactly the DML and Commit items of the consumed prefix in
order. -/
theorem partition_drain_spec (parallel_size : Nat) (canPart : RowData → Bool) :
    ∀ buffer : List DtItem, ∃ consumed : List DtItem,
      buffer = consumed ++ (PartitionParallelizer.drain parallel_size canPart buffer).2 ∧
      (PartitionParallelizer.drain parallel_size canPart buffer).1 =
        consumed.filter keepsDmlOrCommit := by
  intro buffer
  induction buffer with
  | nil => exact ⟨[], by simp [PartitionParallelizer.drain]⟩
  | cons item rest ih =>
    obtain ⟨dd, pos⟩ := item
    obtain ⟨consumed0, hsplit, hbatch⟩ := ih
    cases dd with
    | dml row_data =>
      by_cases hc : (decide (parallel_size > 1) && !(canPart row_data)) = true
      · refine ⟨[⟨DtData.dml row_data, pos⟩], ?_⟩
        simp [PartitionParallelizer.drain, hc, keepsDmlOrCommit]
      · refine ⟨⟨DtData.dml row_data, pos⟩ :: consumed0, ?_⟩
        constructor
        · simpa [PartitionParallelizer.drain, hc] using hsplit
        · simpa [PartitionParallelizer.drain, hc, keepsDmlOrCommit] using hbatch
    | commit xid =>
      refine ⟨⟨DtData.commit xid, pos⟩ :: consumed0, ?_⟩
      constructor
      · simpa [PartitionParallelizer.drain] using hsplit
      · simpa [PartitionParallelizer.drain, keepsDmlOrCommit] using hbatch
    | ddl ddl_data =>
      refine ⟨⟨DtData.ddl ddl_data, pos⟩ :: consumed0, ?_⟩
      constructor
      · simpa [PartitionParallelizer.drain] using hsplit
      · simpa [PartitionParallelizer.drain, keepsDmlOrCommit] using hbatch
    | begin =>
      refine ⟨⟨DtData.begin, pos⟩ :: consumed0, ?_⟩
      constructor
      · simpa [PartitionParallelizer.drain] using hsplit
      · simpa [PartitionParallelizer.drain, keepsDmlOrCommit] using hbatch
    | redis entry =>
      refine ⟨⟨DtData.redis entry, pos⟩ :: consumed0, ?_⟩
      constructor
      · simpa [PartitionParallelizer.drain] using hsplit
      · simpa [PartitionParallelizer.drain, keepsDmlOrCommit] using hbatch

/-- Claim C4: in partition mode DDL items vanish: the drained batch holds
only the DML and Commit items of the consumed prefix of the buffer, every
other consumed item (Ddl included) is popped and discarded, and sink_ddl
returns Ok without invoking any sinker, for every input. -/
theorem c4_partition_ddl_vanish (parallel_size : Nat)
    (canPart : RowData → Bool) (buffer : List DtItem) :
    (∃ consumed : List DtItem,
      buffer = consumed ++ (PartitionParallelizer.drain parallel_size canPart buffer).2 ∧
      (PartitionParallelizer.drain parallel_size canPart buffer).1 =
        consumed.filter keepsDmlOrCommit) ∧
    ∀ (data : List DdlData) (sinkers : List String),
      PartitionParallelizer.sink_ddl data sinkers = (Except.ok (), []) :=
  ⟨partition_drain_spec parallel_size canPart buffer, fun _ _ => rfl⟩

/-- Claim C6: with parallel_size above 1, drain stops at the first DML row
the partitioner reports unpartitionable: the batch is the DML and Commit
items drained before it (Commits unmodified) with that row as last element,
and everything after it stays in the buffer. -/
theorem c6_partition_drain_boundary (parallel_size : Nat)
    (canPart : RowData → Bool) (pre post : List DtItem) (bad : RowData)
    (pos : Position)
    (hps : parallel_size > 1)
    (hpre : ∀ item ∈ pre, ∀ r : RowData, item.dt_data = DtData.dml r → canPart r = true)
    (hbad : canPart bad = false) :
    PartitionParallelizer.drain parallel_size canPart
        (pre ++ ⟨DtData.dml bad, pos⟩ :: post) =
      (pre.filter keepsDmlOrCommit ++ [⟨DtData.dml bad, pos⟩], post) := by
  induction pre with
  | nil =>
    simp [PartitionParallelizer.drain, hps, hbad]
  | cons item rest ih =>
    have ih2 := ih (fun i hi r hr => hpre i (List.mem_cons_of_mem item hi) r hr)
    obtain ⟨dd, p⟩ := item
    cases dd with
    | dml row_data =>
      have hcp : canPart row_data = true :=
        hpre ⟨DtData.dml row_data, p⟩ (List.mem_cons_self _ _) row_data rfl
      simp [PartitionParallelizer.drain, hcp, ih2, keepsDmlOrCommit]
    | commit xid =>
      simp [PartitionParallelizer.drain, ih2, keepsDmlOrCommit]
    | ddl ddl_data =>
      simp [PartitionParallelizer.drain, ih2, keepsDmlOrCommit]
    | begin =>
      simp [PartitionParallelizer.drain, ih2, keepsDmlOrCommit]
    | redis entry =>
      simp [PartitionParallelizer.drain, ih2, keepsDmlOrCommit]

/-- A concrete partitionability predicate for witnesses: a row can be
partitioned when its table name is t. -/
def canPartByTable : RowData → Bool := fun r => r.tb == "t"

/-- S2-style row on a different table, reported unpartitionable by
canPartByTable. -/
def rowBad : RowData :=
  { schema := "s", tb := "u", row_type := RowType.insert,
    before := Option.none, after := some [("pk", ColValue.long 2)] }

/-- Witness for c6_partition_drain_boundary: a buffer of a Commit, a
partitionable DML, a Ddl, then an unpartitionable DML, then a trailing
Commit. -/
theorem c6_partition_drain_boundary_witness :
    PartitionParallelizer.drain 2 canPartByTable
        [⟨DtData.commit "x1", Position.none⟩,
         ⟨DtData.dml rowI1, Position.none⟩,
         ⟨DtData.ddl { query := "alter" }, Position.none⟩,
         ⟨DtData.dml rowBad, Position.none⟩,
         ⟨DtData.commit "x2", Position.none⟩] =
      ([⟨DtData.commit "x1", Position.none⟩,
        ⟨DtData.dml rowI1, Position.none⟩,
        ⟨DtData.dml rowBad, Position.none⟩],
       [⟨DtData.commit "x2", Position.none⟩]) := by
  have h := c6_partition_drain_boundary 2 canPartByTable
    [⟨DtData.commit "x1", Position.none⟩,
     ⟨DtData.dml rowI1, Position.none⟩,
     ⟨DtData.ddl { query := "alter" }, Position.none⟩]
    [⟨DtData.commit "x2", Position.none⟩] rowBad Position.none
    (by decide)
    (by
      intro item hi r hr
      fin_cases hi
      · simp at hr
      · injection hr with h2
        subst h2
        decide
      · simp at hr)
    (by decide)
  simpa [keepsDmlOrCommit] using h

/-- Modelled from the spec: RedisEntry::cal_slots with the key parser (both
outside the covered sources): each key of the command is mapped through the
key parser to its cluster slot. -/
def RedisEntry.cal_slots (entry : RedisEntry) (kp : String → Nat) : List Nat :=
  entry.keys.map kp

/-- The slots of a DtData as RedisParallelizer::sink_raw computes them: the
computed key slots for a Redis entry, the empty list otherwise. -/
def calSlotsOf (kp : String → Nat) : DtData → List Nat
  | DtData.redis entry => entry.cal_slots kp
  | _ => []

/-- The command text used in the cross-slot error message. -/
def cmdOf : DtData → String
  | DtData.redis entry => entry.cmd
  | _ => ""

/-- Lookup in the slot-to-node map (HashMap::get on slot_node_map). -/
def slotLookup : List (Nat × String) → Nat → Option String
  | [], _ => Option.none
  | (k, v) :: rest, s => if k == s then some v else slotLookup rest s

/-- The node-to-sinker-index map of RedisParallelizer::sink_raw, built from
the sinker ids in order; a later duplicate id overwrites an earlier one as
HashMap::insert does. -/
def idIndex : List String → String → Option Nat
  | [], _ => Option.none
  | i :: rest, node =>
    match idIndex rest node with
    | some j => some (j + 1)
    | Option.none => if i == node then some 0 else Option.none

namespace RedisParallelizer

/-- The entry loop of RedisParallelizer::sink_raw (redis_parallelizer.rs)
in cluster mode: route every entry into the per-node batches.  The result
is none when a map lookup unwrap would panic, some error on a cross-slot
command, and some ok with the per-node batches otherwise. -/
def sink_raw_loop (slot_node_map : List (Nat × String)) (sinker_ids : List String)
    (kp : String → Nat) (node_datas : List (List DtData)) :
    List DtData → Option (Except Error (List (List DtData)))
  | [] => some (Except.ok node_datas)
  | d :: rest =>
    match calSlotsOf kp d with
    | [] =>
      sink_raw_loop slot_node_map sinker_ids kp
        (node_datas.map (fun b => b ++ [d])) rest
    | s0 :: srest =>
      if srest.any (fun s => !(s == s0)) then
        some (Except.error (Error.redisCmdError
          ("multi keys dont hash to the same slot, cmd: " ++ cmdOf d)))
      else
        match slotLookup slot_node_map s0 with
        | Option.none => Option.none
        | some node =>
          match idIndex sinker_ids node with
          | Option.none => Option.none
          | some i =>
            sink_raw_loop slot_node_map sinker_ids kp
              (node_datas.set i (node_datas.getD i [] ++ [d])) rest

/-- RedisParallelizer::sink_raw (redis_parallelizer.rs): with an empty
slot-to-node map the whole batch goes down the base path as a single
shard; in cluster mode the entries are routed per node. -/
def sink_raw (slot_node_map : List (Nat × String)) (sinker_ids : List String)
    (kp : String → Nat) (data : List DtData) :
    Option (Except Error (List (List DtData))) :=
  if slot_node_map.isEmpty then
    some (Except.ok [data])
  else
    sink_raw_loop slot_node_map sinker_ids kp
      (List.replicate sinker_ids.length []) data

end RedisParallelizer

/-- An entry can be routed: it has no slots, or its first slot maps to a
node that is a known sinker id. -/
def Routable (m : List (Nat × String)) (ids : List String) (kp : String → Nat)
    (d : DtData) : Prop :=
  match calSlotsOf kp d with
  | [] => True
  | s0 :: _ => ∃ node i, slotLookup m s0 = some node ∧ idIndex ids node = some i

/-- An entry whose computed key slots contain two different values. -/
def CrossSlot (kp : String → Nat) (d : DtData) : Prop :=
  ∃ s0 srest, calSlotsOf kp d = s0 :: srest ∧ ∃ s ∈ srest, s ≠ s0

/-- The loop of sink_raw fails with a RedisCmdError whenever some entry is
cross-slot, provided every entry is routable so that no earlier lookup
panics first. -/
theorem sink_raw_loop_cross_error (m : List (Nat × String)) (ids : List String)
    (kp : String → Nat) :
    ∀ (data : List DtData) (nds : List (List DtData)),
      (∀ d ∈ data, Routable m ids kp d) →
      (∃ d ∈ data, CrossSlot kp d) →
      ∃ msg, RedisParallelizer.sink_raw_loop m ids kp nds data =
        some (Except.error (Error.redisCmdError msg)) := by
  intro data
  induction data with
  | nil =>
    intro nds _ hex
    obtain ⟨d, hd, _⟩ := hex
    exact absurd hd (List.not_mem_nil d)
  | cons d rest ih =>
    intro nds hroute hex
    by_cases hcross : ∃ s0 srest, calSlotsOf kp d = s0 :: srest ∧
        (srest.any (fun s => !(s == s0))) = true
    · obtain ⟨s0, srest, hslots, hany⟩ := hcross
      refine ⟨"multi keys dont hash to the same slot, cmd: " ++ cmdOf d, ?_⟩
      simp [RedisParallelizer.sink_raw_loop, hslots, hany]
    · have hdnotcross : ¬CrossSlot kp d := by
        intro hc
        obtain ⟨s0, srest, hslots, s, hs, hneq⟩ := hc
        exact hcross ⟨s0, srest, hslots, List.any_eq_true.mpr ⟨s, hs, by simp [hneq]⟩⟩
      have hexrest : ∃ e ∈ rest, CrossSlot kp e := by
        obtain ⟨e, he, hc⟩ := hex
        cases List.mem_cons.mp he with
        | inl h => exact absurd (h ▸ hc) hdnotcross
        | inr h => exact ⟨e, h, hc⟩
      have hrrest : ∀ e ∈ rest, Routable m ids kp e :=
        fun e he => hroute e (List.mem_cons_of_mem d he)
      cases hsl : calSlotsOf kp d with
      | nil =>
        obtain ⟨msg, hmsg⟩ := ih (nds.map (fun b => b ++ [d])) hrrest hexrest
        exact ⟨msg, by simp [RedisParallelizer.sink_raw_loop, hsl, hmsg]⟩
      | cons s0 srest =>
        have hany : (srest.any (fun s => !(s == s0))) = false := by
          by_contra hh
          exact hcross ⟨s0, srest, hsl, by
            cases h2 : srest.any (fun s => !(s == s0)) with
            | true => rfl
            | false => exact absurd h2 hh⟩
        have hr := hroute d (List.mem_cons_self d rest)
        rw [Routable, hsl] at hr
        obtain ⟨node, i, hnode, hidx⟩ := hr
        obtain ⟨msg, hmsg⟩ := ih (nds.set i (nds.getD i [] ++ [d])) hrrest hexrest
        exact ⟨msg, by
          simp only [RedisParallelizer.sink_raw_loop, hsl, hany, hnode, hidx,
            Bool.false_eq_true, if_false]
          exact hmsg⟩

/-- Claim C7: in cluster mode sink_raw fails with a RedisCmdError when any
entry is cross-slot (provided every entry routes to a known node, so no
lookup panics first); an entry with no key slots is appended to every node
batch; an entry whose keys all share one slot is appended to exactly the
batch of the node mapped from that slot, all other batches unchanged. -/
theorem c7_redis_cluster_dispatch (m : List (Nat × String)) (ids : List String)
    (kp : String → Nat) (data : List DtData)
    (hm : m ≠ [])
    (hroute : ∀ d ∈ data, Routable m ids kp d) :
    ((∃ d ∈ data, CrossSlot kp d) →
      ∃ msg, RedisParallelizer.sink_raw m ids kp data =
        some (Except.error (Error.redisCmdError msg))) ∧
    (∀ (nds : List (List DtData)) (d : DtData) (rest : List DtData),
      calSlotsOf kp d = [] →
      RedisParallelizer.sink_raw_loop m ids kp nds (d :: rest) =
        RedisParallelizer.sink_raw_loop m ids kp
          (nds.map (fun b => b ++ [d])) rest) ∧
    (∀ (nds : List (List DtData)) (d : DtData) (rest : List DtData)
        (s0 : Nat) (srest : List Nat) (node : String) (i : Nat),
      calSlotsOf kp d = s0 :: srest → (∀ s ∈ srest, s = s0) →
      slotLookup m s0 = some node → idIndex ids node = some i →
      RedisParallelizer.sink_raw_loop m ids kp nds (d :: rest) =
        RedisParallelizer.sink_raw_loop m ids kp
          (nds.set i (nds.getD i [] ++ [d])) rest) := by
  refine ⟨?_, ?_, ?_⟩
  · intro hex
    have hne : m.isEmpty = false := by
      cases m with
      | nil => exact absurd rfl hm
      | cons a l => rfl
    obtain ⟨msg, hmsg⟩ :=
      sink_raw_loop_cross_error m ids kp data (List.replicate ids.length [])
        hroute hex
    exact ⟨msg, by simp [RedisParallelizer.sink_raw, hne, hmsg]⟩
  · intro nds d rest hsl
    simp [RedisParallelizer.sink_raw_loop, hsl]
  · intro nds d rest s0 srest node i hsl hall hnode hidx
    have hany : (srest.any (fun s => !(s == s0))) = false := by
      rw [List.any_eq_false]
      intro s hs
      simp [hall s hs]
    simp [RedisParallelizer.sink_raw_loop, hsl, hany, hnode, hidx]

/-- The key parser for the witness: key a sits in slot 0, every other key
in slot 5. -/
def kpW : String → Nat := fun k => if k == "a" then 0 else 5

/-- A cross-slot MSET entry for the witness: keys a and b hash to slots 0
and 5. -/
def entryCross : RedisEntry :=
  { cmd := "MSET", keys := ["a", "b"], is_raw := true }

/-- Witness for c7_redis_cluster_dispatch: dispatching the single
cross-slot MSET on a two-node cluster fails with a RedisCmdError. -/
theorem c7_redis_cluster_dispatch_witness :
    ∃ msg, RedisParallelizer.sink_raw [(0, "n0"), (5, "n1")] ["n0", "n1"] kpW
        [DtData.redis entryCross] =
      some (Except.error (Error.redisCmdError msg)) :=
  (c7_redis_cluster_dispatch [(0, "n0"), (5, "n1")] ["n0", "n1"] kpW
      [DtData.redis entryCross]
      (by decide)
      (by
        intro d hd
        fin_cases hd
        exact ⟨"n0", 0, rfl, rfl⟩)).1
    ⟨DtData.redis entryCross, List.mem_cons_self _ _,
      ⟨0, [5], rfl, 5, by decide, by decide⟩⟩

/-- Hexadecimal digit value of a character. -/
def hexDigitVal (c : Char) : Option Nat :=
  if 48 ≤ c.toNat ∧ c.toNat ≤ 57 then some (c.toNat - 48)
  else if 97 ≤ c.toNat ∧ c.toNat ≤ 102 then some (c.toNat - 87)
  else if 65 ≤ c.toNat ∧ c.toNat ≤ 70 then some (c.toNat - 55)
  else Option.none

/-- Accumulating hexadecimal parse of a character list. -/
def parseHexLoop : List Char → Nat → Option Nat
  | [], acc => some acc
  | c :: rest, acc =>
    match hexDigitVal c with
    | Option.none => Option.none
    | some v => parseHexLoop rest (acc * 16 + v)

/-- Hexadecimal parse; the empty digit string is rejected. -/
def parseHex (cs : List Char) : Option Nat :=
  match cs with
  | [] => Option.none
  | _ => parseHexLoop cs 0

/-- Split a character list into the segments between slash characters. -/
def splitOnSlash : List Char → List (List Char)
  | [] => [[]]
  | c :: rest =>
    let r := splitOnSlash rest
    if c == Char.ofNat 47 then [] :: r
    else
      match r with
      | [] => [[c]]
      | h :: t => (c :: h) :: t

/-- Modelled from the spec: parsing the textual LSN (postgres PgLsn, an
external library type): two hexadecimal numbers separated by a slash, the
value being high times 2 to the 32 plus low. -/
def parseLsn (s : String) : Option Nat :=
  match splitOnSlash s.data with
  | [hi, lo] =>
    match parseHex hi, parseHex lo with
    | some h, some l => some (h * 4294967296 + l)
    | _, _ => Option.none
  | _ => Option.none

namespace PgCdcExtractor

/-- The LSN chosen by PgCdcExtractor::heartbeat (pg_cdc_extractor.rs): the
syncer committed PgCdc LSN when present and non-empty, else the actual
start LSN returned by the server; none models the parse unwrap panic. -/
def heartbeat_lsn (checkpoint_position : Position) (start_lsn : String) :
    Option Nat :=
  match checkpoint_position with
  | Position.pgCdc lsn _ =>
    if lsn.isEmpty then parseLsn start_lsn else parseLsn lsn
  | _ => parseLsn start_lsn

/-- The standby-status-update payload PgCdcExtractor::heartbeat sends:
write, flush and apply LSN all equal the chosen LSN, and the request-reply
flag is 1. -/
def heartbeat (checkpoint_position : Position) (start_lsn : String) :
    Option (Nat × Nat × Nat × Nat) :=
  (heartbeat_lsn checkpoint_position start_lsn).map (fun lsn => (lsn, lsn, lsn, 1))

end PgCdcExtractor

/-- Claim C2, counterexample: with committed LSN 0/2 older than the actual
start LSN 0/5, the heartbeat acknowledges 2, not the more recent value 5:
the code takes the committed LSN unconditionally when present, it never
compares recency. -/
theorem c2_counterexample :
    PgCdcExtractor.heartbeat_lsn (Position.pgCdc "0/2" "") "0/5" = some 2 ∧
    parseLsn "0/5" = some 5 ∧
    PgCdcExtractor.heartbeat_lsn (Position.pgCdc "0/2" "") "0/5" ≠ some (max 2 5) := by
  decide

/-- Claim C2, amended: every standby-status-update acknowledges the
syncer committed LSN whenever the syncer holds a PgCdc position with a
non-empty LSN (whether or not it is more recent than the actual start
LSN), and the actual start LSN otherwise; write, flush and apply LSNs are
identical and the request-reply flag is 1. -/
theorem c2_heartbeat_ack (pos : Position) (start_lsn : String) :
    (∀ lsn ts, pos = Position.pgCdc lsn ts → lsn ≠ "" →
      PgCdcExtractor.heartbeat pos start_lsn =
        (parseLsn lsn).map (fun l => (l, l, l, 1))) ∧
    (∀ lsn ts, pos = Position.pgCdc lsn ts → lsn = "" →
      PgCdcExtractor.heartbeat pos start_lsn =
        (parseLsn start_lsn).map (fun l => (l, l, l, 1))) ∧
    ((∀ lsn ts, pos ≠ Position.pgCdc lsn ts) →
      PgCdcExtractor.heartbeat pos start_lsn =
        (parseLsn start_lsn).map (fun l => (l, l, l, 1))) := by
  refine ⟨?_, ?_, ?_⟩
  · intro lsn ts hp hne
    subst hp
    have : lsn.isEmpty = false := by
      cases h : lsn.isEmpty with
      | true => exact absurd ((String.isEmpty_iff lsn).mp h) hne
      | false => rfl
    simp [PgCdcExtractor.heartbeat, PgCdcExtractor.heartbeat_lsn, this]
  · intro lsn ts hp hemp
    subst hp
    subst hemp
    simp [PgCdcExtractor.heartbeat, PgCdcExtractor.heartbeat_lsn,
      String.isEmpty_iff]
  · intro hnot
    cases pos with
    | pgCdc lsn ts => exact absurd rfl (hnot lsn ts)
    | none => simp [PgCdcExtractor.heartbeat, PgCdcExtractor.heartbeat_lsn]
    | redis a b => simp [PgCdcExtractor.heartbeat, PgCdcExtractor.heartbeat_lsn]
    | kafka a b c => simp [PgCdcExtractor.heartbeat, PgCdcExtractor.heartbeat_lsn]

/-- Witness for c2_heartbeat_ack: committed LSN 0/2 present and non-empty,
actual start 0/5; the update carries the committed LSN three times with
flag 1. -/
theorem c2_heartbeat_ack_witness :
    PgCdcExtractor.heartbeat (Position.pgCdc "0/2" "") "0/5" =
      (parseLsn "0/2").map (fun l => (l, l, l, 1)) :=
  (c2_heartbeat_ack (Position.pgCdc "0/2" "") "0/5").1 "0/2" "" rfl (by decide)

/-- A tuple slot of the logical replication wire protocol
(postgres_protocol TupleData, as matched by the covered sources). -/
inductive TupleData where
  | null
  | text (value : String)
  | unchangedToast
  deriving DecidableEq

/-- Modelled from the spec: the basic block of PG table metadata the
extractor reads: schema, table, ordered column list and chosen id
columns (the registry modules are not among the covered sources). -/
structure PgTbMetaBasic where
  schema : String
  tb : String
  cols : List String
  id_cols : List String
  deriving DecidableEq

/-- Modelled from the spec: PG table metadata: the basic block plus the
per-column type map, the latter embedded with type names as text. -/
structure PgTbMeta where
  basic : PgTbMetaBasic
  col_type_map : List (String × String)
  deriving DecidableEq

/-- Lookup in a string-keyed string map (HashMap::get on col_type_map). -/
def strLookup : List (String × String) → String → Option String
  | [], _ => Option.none
  | (k, v) :: rest, c => if k == c then some v else strLookup rest c

namespace PgCdcExtractor

/-- The indexed loop of PgCdcExtractor::parse_row_data
(pg_cdc_extractor.rs): slot i pairs with column i; a missing column or
column type models the panicking unwrap (none); an UnchangedToast slot
returns an ExtractorError; Null becomes ColValue::None and Text goes
through the wal converter conv (PgColValueConvertor::from_wal, outside the
covered sources, modelled as an abstract total function from column type
and text to a value). -/
def parse_row_data_loop (conv : String → String → ColValue) (tb_meta : PgTbMeta) :
    List TupleData → Nat → CvMap → Option (Except Error CvMap)
  | [], _, col_values => some (Except.ok col_values)
  | td :: rest, i, col_values =>
    match tb_meta.basic.cols[i]? with
    | Option.none => Option.none
    | some col =>
      match strLookup tb_meta.col_type_map col with
      | Option.none => Option.none
      | some col_type =>
        match td with
        | TupleData.null =>
          parse_row_data_loop conv tb_meta rest (i + 1)
            (CvMap.insert col_values col ColValue.none)
        | TupleData.text value =>
          parse_row_data_loop conv tb_meta rest (i + 1)
            (CvMap.insert col_values col (conv col_type value))
        | TupleData.unchangedToast =>
          some (Except.error (Error.extractorError
            "unexpected UnchangedToast value received"))

/-- PgCdcExtractor::parse_row_data (pg_cdc_extractor.rs). -/
def parse_row_data (conv : String → String → ColValue) (tb_meta : PgTbMeta)
    (tuple_data : List TupleData) : Option (Except Error CvMap) :=
  parse_row_data_loop conv tb_meta tuple_data 0 []

/-- The spoken name of a row type, as used by the event filter. -/
def rowTypeName : RowType → String
  | RowType.insert => "insert"
  | RowType.update => "update"
  | RowType.delete => "delete"

/-- PgCdcExtractor::push_row_to_buf (pg_cdc_extractor.rs): a filtered row
is dropped silently, an unfiltered row is wrapped into a Dml DtItem and
appended to the buffer. -/
def push_row_to_buf (filter : String → String → String → Bool)
    (buffer : List DtItem) (row_data : RowData) (position : Position) :
    List DtItem :=
  if filter row_data.schema row_data.tb (rowTypeName row_data.row_type) then
    buffer
  else
    buffer ++ [{ dt_data := DtData.dml row_data, position := position }]

/-- The insert frame body (postgres_protocol InsertBody as read by the
covered sources: relation oid and new tuple). -/
structure InsertBody where
  rel_id : Nat
  tuple : List TupleData
  deriving DecidableEq

/-- The update frame body (postgres_protocol UpdateBody as read by the
covered sources: relation oid, optional old and key tuples, new tuple). -/
structure UpdateBody where
  rel_id : Nat
  old_tuple : Option (List TupleData)
  key_tuple : Option (List TupleData)
  new_tuple : List TupleData
  deriving DecidableEq

/-- The delete frame body (postgres_protocol DeleteBody as read by the
covered sources: relation oid, optional old and key tuples). -/
structure DeleteBody where
  rel_id : Nat
  old_tuple : Option (List TupleData)
  key_tuple : Option (List TupleData)
  deriving DecidableEq

/-- PgCdcExtractor::decode_insert (pg_cdc_extractor.rs), with the table
metadata the oid registry returns passed explicitly.  The first component
is the call result (none models a panic), the second the buffer after the
call: unchanged unless the decoded row is pushed. -/
def decode_insert (conv : String → String → ColValue)
    (filter : String → String → String → Bool) (tb_meta : PgTbMeta)
    (event : InsertBody) (position : Position) (buffer : List DtItem) :
    Option (Except Error Unit) × List DtItem :=
  match parse_row_data conv tb_meta event.tuple with
  | Option.none => (Option.none, buffer)
  | some (Except.error e) => (some (Except.error e), buffer)
  | some (Except.ok col_values) =>
    let row_data : RowData :=
      { schema := tb_meta.basic.schema, tb := tb_meta.basic.tb,
        row_type := RowType.insert, before := Option.none,
        after := some col_values }
    (some (Except.ok ()), push_row_to_buf filter buffer row_data position)

/-- The last-resort projection loop of PgCdcExtractor::decode_update: copy
each id column out of the after image; a missing id column models the
panicking unwrap. -/
def project_id_cols_loop (col_values_after : CvMap) :
    List String → CvMap → Option CvMap
  | [], acc => some acc
  | col :: rest, acc =>
    match CvMap.get col_values_after col with
    | Option.none => Option.none
    | some v => project_id_cols_loop col_values_after rest (CvMap.insert acc col v)

/-- PgCdcExtractor::decode_update (pg_cdc_extractor.rs): the after image is
the decoded new tuple; the before image is the decoded old tuple when
present, else the decoded key tuple when present, else the projection of
the after image onto id_cols, else the empty map. -/
def decode_update (conv : String → String → ColValue)
    (filter : String → String → String → Bool) (tb_meta : PgTbMeta)
    (event : UpdateBody) (position : Position) (buffer : List DtItem) :
    Option (Except Error Unit) × List DtItem :=
  match parse_row_data conv tb_meta event.new_tuple with
  | Option.none => (Option.none, buffer)
  | some (Except.error e) => (some (Except.error e), buffer)
  | some (Except.ok col_values_after) =>
    let beforeRes : Option (Except Error CvMap) :=
      match event.old_tuple with
      | some t => parse_row_data conv tb_meta t
      | Option.none =>
        match event.key_tuple with
        | some t => parse_row_data conv tb_meta t
        | Option.none =>
          if !tb_meta.basic.id_cols.isEmpty then
            match project_id_cols_loop col_values_after tb_meta.basic.id_cols [] with
            | Option.none => Option.none
            | some m => some (Except.ok m)
          else
            some (Except.ok [])
    match beforeRes with
    | Option.none => (Option.none, buffer)
    | some (Except.error e) => (some (Except.error e), buffer)
    | some (Except.ok col_values_before) =>
      let row_data : RowData :=
        { schema := tb_meta.basic.schema, tb := tb_meta.basic.tb,
          row_type := RowType.update, before := some col_values_before,
          after := some col_values_after }
      (some (Except.ok ()), push_row_to_buf filter buffer row_data position)

/-- PgCdcExtractor::decode_delete (pg_cdc_extractor.rs): the before image
is the decoded old tuple when present, else the decoded key tuple when
present, else the empty map. -/
def decode_delete (conv : String → String → ColValue)
    (filter : String → String → String → Bool) (tb_meta : PgTbMeta)
    (event : DeleteBody) (position : Position) (buffer : List DtItem) :
    Option (Except Error Unit) × List DtItem :=
  let colRes : Option (Except Error CvMap) :=
    match event.old_tuple with
    | some t => parse_row_data conv tb_meta t
    | Option.none =>
      match event.key_tuple with
      | some t => parse_row_data conv tb_meta t
      | Option.none => some (Except.ok [])
  match colRes with
  | Option.none => (Option.none, buffer)
  | some (Except.error e) => (some (Except.error e), buffer)
  | some (Except.ok col_values) =>
    let row_data : RowData :=
      { schema := tb_meta.basic.schema, tb := tb_meta.basic.tb,
        row_type := RowType.delete, before := some col_values,
        after := Option.none }
    (some (Except.ok ()), push_row_to_buf filter buffer row_data position)

end PgCdcExtractor

/-- Claim C8: the before image of a decoded PG Update is the decoded old
tuple when present, else the decoded key tuple when present, else the
projection of the after image onto id_cols, and the empty map when id_cols
is empty; the after image is always the fully decoded new tuple. -/
theorem c8_pg_update_before_image (conv : String → String → ColValue)
    (filter : String → String → String → Bool) (tb_meta : PgTbMeta)
    (event : PgCdcExtractor.UpdateBody) (position : Position)
    (buffer : List DtItem) (after0 : CvMap)
    (hafter : PgCdcExtractor.parse_row_data conv tb_meta event.new_tuple =
      some (Except.ok after0)) :
    (∀ t bt, event.old_tuple = some t →
      PgCdcExtractor.parse_row_data conv tb_meta t = some (Except.ok bt) →
      PgCdcExtractor.decode_update conv filter tb_meta event position buffer =
        (some (Except.ok ()), PgCdcExtractor.push_row_to_buf filter buffer
          { schema := tb_meta.basic.schema, tb := tb_meta.basic.tb,
            row_type := RowType.update, before := some bt,
            after := some after0 } position)) ∧
    (∀ t bt, event.old_tuple = Option.none → event.key_tuple = some t →
      PgCdcExtractor.parse_row_data conv tb_meta t = some (Except.ok bt) →
      PgCdcExtractor.decode_update conv filter tb_meta event position buffer =
        (some (Except.ok ()), PgCdcExtractor.push_row_to_buf filter buffer
          { schema := tb_meta.basic.schema, tb := tb_meta.basic.tb,
            row_type := RowType.update, before := some bt,
            after := some after0 } position)) ∧
    (∀ proj, event.old_tuple = Option.none → event.key_tuple = Option.none →
      tb_meta.basic.id_cols ≠ [] →
      PgCdcExtractor.project_id_cols_loop after0 tb_meta.basic.id_cols [] =
        some proj →
      PgCdcExtractor.decode_update conv filter tb_meta event position buffer =
        (some (Except.ok ()), PgCdcExtractor.push_row_to_buf filter buffer
          { schema := tb_meta.basic.schema, tb := tb_meta.basic.tb,
            row_type := RowType.update, before := some proj,
            after := some after0 } position)) ∧
    (event.old_tuple = Option.none → event.key_tuple = Option.none →
      tb_meta.basic.id_cols = [] →
      PgCdcExtractor.decode_update conv filter tb_meta event position buffer =
        (some (Except.ok ()), PgCdcExtractor.push_row_to_buf filter buffer
          { schema := tb_meta.basic.schema, tb := tb_meta.basic.tb,
            row_type := RowType.update, before := some [],
            after := some after0 } position)) := by
  refine ⟨?_, ?_, ?_, ?_⟩
  · intro t bt hold hbt
    simp [PgCdcExtractor.decode_update, hafter, hold, hbt]
  · intro t bt hold hkey hbt
    simp [PgCdcExtractor.decode_update, hafter, hold, hkey, hbt]
  · intro proj hold hkey hid hproj
    have hidb : tb_meta.basic.id_cols.isEmpty = false := by
      cases h : tb_meta.basic.id_cols with
      | nil => exact absurd h hid
      | cons a l => rfl
    simp [PgCdcExtractor.decode_update, hafter, hold, hkey, hidb, hproj]
  · intro hold hkey hid
    simp [PgCdcExtractor.decode_update, hafter, hold, hkey, hid]

/-- The wal converter for witnesses: keep the text value. -/
def convW : String → String → ColValue := fun _ v => ColValue.str v

/-- The event filter for witnesses: filter nothing. -/
def filterNone : String → String → String → Bool := fun _ _ _ => false

/-- Table metadata of scenario S4: relation advertises pk id, columns id
and v. -/
def metaS4 : PgTbMeta :=
  { basic := { schema := "public", tb := "t4", cols := ["id", "v"],
               id_cols := ["id"] },
    col_type_map := [("id", "int4"), ("v", "text")] }

/-- The S4 update body: no old tuple, no key tuple, complete new tuple. -/
def updateS4 : PgCdcExtractor.UpdateBody :=
  { rel_id := 7, old_tuple := Option.none, key_tuple := Option.none,
    new_tuple := [TupleData.text "7", TupleData.text "x"] }

/-- Witness for c8_pg_update_before_image: scenario S4: the before image is
the projection id only, the after image is complete. -/
theorem c8_pg_update_before_image_witness :
    PgCdcExtractor.decode_update convW filterNone metaS4 updateS4
        Position.none [] =
      (some (Except.ok ()),
       [{ dt_data := DtData.dml
            { schema := "public", tb := "t4", row_type := RowType.update,
              before := some [("id", ColValue.str "7")],
              after := some [("id", ColValue.str "7"), ("v", ColValue.str "x")] },
          position := Position.none }]) := by
  have h := (c8_pg_update_before_image convW filterNone metaS4 updateS4
    Position.none [] [("id", ColValue.str "7"), ("v", ColValue.str "x")]
    rfl).2.2.1 [("id", ColValue.str "7")] rfl rfl (by decide) rfl
  simpa [PgCdcExtractor.push_row_to_buf, filterNone] using h

/-- Parsing a tuple that holds an UnchangedToast slot yields the
extractor error, provided every slot pairs with a known column of a known
type so that no unwrap panics first. -/
theorem parse_row_data_loop_toast (conv : String → String → ColValue)
    (tb_meta : PgTbMeta) :
    ∀ (td : List TupleData) (i : Nat) (acc : CvMap),
      TupleData.unchangedToast ∈ td →
      i + td.length ≤ tb_meta.basic.cols.length →
      (∀ c ∈ tb_meta.basic.cols, strLookup tb_meta.col_type_map c ≠ Option.none) →
      PgCdcExtractor.parse_row_data_loop conv tb_meta td i acc =
        some (Except.error (Error.extractorError
          "unexpected UnchangedToast value received")) := by
  intro td
  induction td with
  | nil =>
    intro i acc hmem _ _
    exact absurd hmem (List.not_mem_nil _)
  | cons t rest ih =>
    intro i acc hmem hlen htypes
    have hi : i < tb_meta.basic.cols.length := by
      simp only [List.length_cons] at hlen
      omega
    have hcol : tb_meta.basic.cols[i]? = some (tb_meta.basic.cols[i]) :=
      List.getElem?_eq_getElem hi
    have hcm : tb_meta.basic.cols[i] ∈ tb_meta.basic.cols :=
      List.getElem_mem hi
    have hty := htypes _ hcm
    cases hstr : strLookup tb_meta.col_type_map (tb_meta.basic.cols[i]) with
    | none => exact absurd hstr hty
    | some col_type =>
      have hlen2 : i + 1 + rest.length ≤ tb_meta.basic.cols.length := by
        simp only [List.length_cons] at hlen
        omega
      cases t with
      | unchangedToast =>
        simp [PgCdcExtractor.parse_row_data_loop, hcol, hstr]
      | null =>
        have hmem2 : TupleData.unchangedToast ∈ rest := by
          cases List.mem_cons.mp hmem with
          | inl h => exact absurd h (by decide)
          | inr h => exact h
        simp only [PgCdcExtractor.parse_row_data_loop, hcol, hstr]
        exact ih (i + 1) _ hmem2 hlen2 htypes
      | text value =>
        have hmem2 : TupleData.unchangedToast ∈ rest := by
          cases List.mem_cons.mp hmem with
          | inl h => exact absurd h (by simp)
          | inr h => exact h
        simp only [PgCdcExtractor.parse_row_data_loop, hcol, hstr]
        exact ih (i + 1) _ hmem2 hlen2 htypes

/-- Claim C9: decoding a PG Insert, Update or Delete frame whose read tuple
data holds an UnchangedToast slot returns the ExtractorError, and the
buffer is unchanged (no DtItem for the frame is pushed); the well-typing
hypotheses rule out the unwrap panics that would fire before the slot is
reached. -/
theorem c9_unchanged_toast_error (conv : String → String → ColValue)
    (filter : String → String → String → Bool) (tb_meta : PgTbMeta)
    (position : Position) (buffer : List DtItem)
    (htypes : ∀ c ∈ tb_meta.basic.cols, strLookup tb_meta.col_type_map c ≠ Option.none) :
    (∀ event : PgCdcExtractor.InsertBody,
      TupleData.unchangedToast ∈ event.tuple →
      event.tuple.length ≤ tb_meta.basic.cols.length →
      PgCdcExtractor.decode_insert conv filter tb_meta event position buffer =
        (some (Except.error (Error.extractorError
          "unexpected UnchangedToast value received")), buffer)) ∧
    (∀ event : PgCdcExtractor.UpdateBody,
      TupleData.unchangedToast ∈ event.new_tuple →
      event.new_tuple.length ≤ tb_meta.basic.cols.length →
      PgCdcExtractor.decode_update conv filter tb_meta event position buffer =
        (some (Except.error (Error.extractorError
          "unexpected UnchangedToast value received")), buffer)) ∧
    (∀ (event : PgCdcExtractor.UpdateBody) (t : List TupleData) (after0 : CvMap),
      event.old_tuple = some t →
      TupleData.unchangedToast ∈ t →
      t.length ≤ tb_meta.basic.cols.length →
      PgCdcExtractor.parse_row_data conv tb_meta event.new_tuple =
        some (Except.ok after0) →
      PgCdcExtractor.decode_update conv filter tb_meta event position buffer =
        (some (Except.error (Error.extractorError
          "unexpected UnchangedToast value received")), buffer)) ∧
    (∀ (event : PgCdcExtractor.UpdateBody) (t : List TupleData) (after0 : CvMap),
      event.old_tuple = Option.none → event.key_tuple = some t →
      TupleData.unchangedToast ∈ t →
      t.length ≤ tb_meta.basic.cols.length →
      PgCdcExtractor.parse_row_data conv tb_meta event.new_tuple =
        some (Except.ok after0) →
      PgCdcExtractor.decode_update conv filter tb_meta event position buffer =
        (some (Except.error (Error.extractorError
          "unexpected UnchangedToast value received")), buffer)) ∧
    (∀ (event : PgCdcExtractor.DeleteBody) (t : List TupleData),
      event.old_tuple = some t →
      TupleData.unchangedToast ∈ t →
      t.length ≤ tb_meta.basic.cols.length →
      PgCdcExtractor.decode_delete conv filter tb_meta event position buffer =
        (some (Except.error (Error.extractorError
          "unexpected UnchangedToast value received")), buffer)) ∧
    (∀ (event : PgCdcExtractor.DeleteBody) (t : List TupleData),
      event.old_tuple = Option.none → event.key_tuple = some t →
      TupleData.unchangedToast ∈ t →
      t.length ≤ tb_meta.basic.cols.length →
      PgCdcExtractor.decode_delete conv filter tb_meta event position buffer =
        (some (Except.error (Error.extractorError
          "unexpected UnchangedToast value received")), buffer)) := by
  refine ⟨?_, ?_, ?_, ?_, ?_, ?_⟩
  · intro event hmem hlen
    have hp := parse_row_data_loop_toast conv tb_meta event.tuple 0 [] hmem
      (by simpa using hlen) htypes
    simp [PgCdcExtractor.decode_insert, PgCdcExtractor.parse_row_data, hp]
  · intro event hmem hlen
    have hp := parse_row_data_loop_toast conv tb_meta event.new_tuple 0 [] hmem
      (by simpa using hlen) htypes
    simp [PgCdcExtractor.decode_update, PgCdcExtractor.parse_row_data, hp]
  · intro event t after0 hold hmem hlen hafter
    have hp := parse_row_data_loop_toast conv tb_meta t 0 [] hmem
      (by simpa using hlen) htypes
    simp only [PgCdcExtractor.parse_row_data] at hafter
    simp [PgCdcExtractor.decode_update, hafter, hold,
      PgCdcExtractor.parse_row_data, hp]
  · intro event t after0 hold hkey hmem hlen hafter
    have hp := parse_row_data_loop_toast conv tb_meta t 0 [] hmem
      (by simpa using hlen) htypes
    simp only [PgCdcExtractor.parse_row_data] at hafter
    simp [PgCdcExtractor.decode_update, hafter, hold, hkey,
      PgCdcExtractor.parse_row_data, hp]
  · intro event t hold hmem hlen
    have hp := parse_row_data_loop_toast conv tb_meta t 0 [] hmem
      (by simpa using hlen) htypes
    simp [PgCdcExtractor.decode_delete, hold,
      PgCdcExtractor.parse_row_data, hp]
  · intro event t hold hkey hmem hlen
    have hp := parse_row_data_loop_toast conv tb_meta t 0 [] hmem
      (by simpa using hlen) htypes
    simp [PgCdcExtractor.decode_delete, hold, hkey,
      PgCdcExtractor.parse_row_data, hp]

/-- Table metadata for the toast witness: one typed column. -/
def metaToast : PgTbMeta :=
  { basic := { schema := "public", tb := "t9", cols := ["id"], id_cols := ["id"] },
    col_type_map := [("id", "int4")] }

/-- An insert body whose tuple holds an UnchangedToast slot. -/
def insertToast : PgCdcExtractor.InsertBody :=
  { rel_id := 9, tuple := [TupleData.unchangedToast] }

/-- Witness for c9_unchanged_toast_error: the toast insert fails with the
extractor error and leaves the buffer empty. -/
theorem c9_unchanged_toast_error_witness :
    PgCdcExtractor.decode_insert convW filterNone metaToast insertToast
        Position.none [] =
      (some (Except.error (Error.extractorError
        "unexpected UnchangedToast value received")), []) :=
  (c9_unchanged_toast_error convW filterNone metaToast Position.none []
      (by
        intro c hc
        fin_cases hc
        decide)).1
    insertToast (by decide) (by decide)

/-- Lower an ASCII uppercase letter, leave everything else unchanged. -/
def asciiLowerChar (c : Char) : Char :=
  if 65 ≤ c.toNat ∧ c.toNat ≤ 90 then Char.ofNat (c.toNat + 32) else c

/-- Rust str::eq_ignore_ascii_case. -/
def eqIgnoreAsciiCase (s t : String) : Bool :=
  s.data.map asciiLowerChar == t.data.map asciiLowerChar

/-- A non-raw Redis entry whose command name is ping, ignoring ASCII
case: BasePipeline::fetch_raw drops it from the dispatched data. -/
def isPingEntry (e : RedisEntry) : Bool :=
  !e.is_raw && eqIgnoreAsciiCase e.cmd "ping"

/-- The accumulator of BasePipeline::fetch_raw: dispatched data and the
two positions. -/
structure FetchRawState where
  raw_data : List DtData
  last_received_position : Option Position
  last_commit_position : Option Position
  deriving DecidableEq

namespace BasePipeline

/-- One iteration of the loop in BasePipeline::fetch_raw
(base_pipeline.rs): a Commit advances both positions and is dropped; a
Redis entry advances both positions and is dispatched unless it is a
non-raw ping; anything else advances the received position and is
dispatched. -/
def fetch_raw_step (st : FetchRawState) (i : DtItem) : FetchRawState :=
  match i.dt_data with
  | DtData.commit _ =>
    { st with
      last_commit_position := some i.position,
      last_received_position := some i.position }
  | DtData.redis entry =>
    let st2 := { st with
      last_received_position := some i.position,
      last_commit_position := some i.position }
    if !entry.is_raw && eqIgnoreAsciiCase entry.cmd "ping" then st2
    else { st2 with raw_data := st2.raw_data ++ [i.dt_data] }
  | _ =>
    { st with
      last_received_position := some i.position,
      raw_data := st.raw_data ++ [i.dt_data] }

/-- BasePipeline::fetch_raw (base_pipeline.rs). -/
def fetch_raw (data : List DtItem) : FetchRawState :=
  data.foldl fetch_raw_step
    { raw_data := [], last_received_position := Option.none,
      last_commit_position := Option.none }

end BasePipeline

/-- The accumulator of BasePipeline::fetch_dml. -/
structure FetchDmlState where
  dml_data : List RowData
  last_received_position : Option Position
  last_commit_position : Option Position
  deriving DecidableEq

/-- The accumulator of BasePipeline::fetch_ddl. -/
structure FetchDdlState where
  ddl_data : List DdlData
  last_received_position : Option Position
  last_commit_position : Option Position
  deriving DecidableEq

namespace BasePipeline

/-- One iteration of the loop in BasePipeline::fetch_dml
(base_pipeline.rs): a Commit advances both positions and is dropped; a Dml
row advances the received position and is dispatched after the optional
udf hook; anything else is skipped. -/
def fetch_dml_step (udf : Option (RowData → RowData)) (st : FetchDmlState)
    (i : DtItem) : FetchDmlState :=
  match i.dt_data with
  | DtData.commit _ =>
    { st with
      last_commit_position := some i.position,
      last_received_position := some i.position }
  | DtData.dml row_data =>
    let row2 := match udf with
      | some f => f row_data
      | Option.none => row_data
    { st with
      last_received_position := some i.position,
      dml_data := st.dml_data ++ [row2] }
  | _ => st

/-- BasePipeline::fetch_dml (base_pipeline.rs). -/
def fetch_dml (udf : Option (RowData → RowData)) (data : List DtItem) :
    FetchDmlState :=
  data.foldl (fetch_dml_step udf)
    { dml_data := [], last_received_position := Option.none,
      last_commit_position := Option.none }

/-- One iteration of the loop in BasePipeline::fetch_ddl
(base_pipeline.rs): a Commit advances both positions and is dropped; a Ddl
advances the received position and is dispatched; anything else is
skipped. -/
def fetch_ddl_step (st : FetchDdlState) (i : DtItem) : FetchDdlState :=
  match i.dt_data with
  | DtData.commit _ =>
    { st with
      last_commit_position := some i.position,
      last_received_position := some i.position }
  | DtData.ddl ddl_data =>
    { st with
      last_received_position := some i.position,
      ddl_data := st.ddl_data ++ [ddl_data] }
  | _ => st

/-- BasePipeline::fetch_ddl (base_pipeline.rs). -/
def fetch_ddl (data : List DtItem) : FetchDdlState :=
  data.foldl fetch_ddl_step
    { ddl_data := [], last_received_position := Option.none,
      last_commit_position := Option.none }

/-- The payload count and the two positions a nonempty drained batch
produces in BasePipeline::start: the raw path when the sink db type is
Redis or Kafka, else the ddl path when the first item is a Ddl, else the
dml path. -/
def batch_positions (dbRaw : Bool) (udf : Option (RowData → RowData))
    (data : List DtItem) : Nat × Option Position × Option Position :=
  if dbRaw then
    let st := fetch_raw data
    (st.raw_data.length, st.last_received_position, st.last_commit_position)
  else if (data.head?.map DtItem.is_ddl).getD false then
    let st := fetch_ddl data
    (st.ddl_data.length, st.last_received_position, st.last_commit_position)
  else
    let st := fetch_dml udf data
    (st.dml_data.length, st.last_received_position, st.last_commit_position)

end BasePipeline

/-- The pipeline-local and shared positions BasePipeline::start works
with: the two batch position locals and the syncer checkpoint position. -/
structure PipeState where
  last_received_position : Option Position
  last_commit_position : Option Position
  checkpoint_position : Position
  deriving DecidableEq

/-- The external inputs of one iteration of the loop in
BasePipeline::start: the drained batch (empty when the accumulation branch
skips draining), whether every sinker call of this batch succeeds, and
whether the checkpoint interval has elapsed. -/
structure PipeInput where
  drained : List DtItem
  sink_ok : Bool
  checkpoint_elapsed : Bool
  deriving DecidableEq

namespace BasePipeline

/-- BasePipeline::record_checkpoint (base_pipeline.rs): before the
checkpoint interval has elapsed nothing happens; after it, the commit
position, when present, is written into the syncer.  The second component
is the write event. -/
def record_checkpoint (st : PipeState) (elapsed : Bool) :
    PipeState × Option Position :=
  if !elapsed then (st, Option.none)
  else
    match st.last_commit_position with
    | some position =>
      ({ st with checkpoint_position := position }, some position)
    | Option.none => (st, Option.none)

/-- One iteration of the loop in BasePipeline::start (base_pipeline.rs):
an empty batch goes straight to record_checkpoint; a nonempty batch is
fetched and sunk: a failing sinker call panics the run (none) before any
position moves; on success the received local is overwritten and the
commit local is updated when the batch produced one, then
record_checkpoint runs. -/
def pipeline_iter (dbRaw : Bool) (udf : Option (RowData → RowData))
    (st : PipeState) (inp : PipeInput) : Option (PipeState × Option Position) :=
  if inp.drained.isEmpty then
    some (record_checkpoint st inp.checkpoint_elapsed)
  else
    if decide ((batch_positions dbRaw udf inp.drained).1 > 0) && !inp.sink_ok then
      Option.none
    else
      some (record_checkpoint
        { st with
          last_received_position := (batch_positions dbRaw udf inp.drained).2.1,
          last_commit_position :=
            if ((batch_positions dbRaw udf inp.drained).2.2).isSome
            then (batch_positions dbRaw udf inp.drained).2.2
            else st.last_commit_position }
        inp.checkpoint_elapsed)

/-- The loop of BasePipeline::start over a trace of iteration inputs,
collecting the syncer write events; a panicking iteration ends the run. -/
def pipeline_run (dbRaw : Bool) (udf : Option (RowData → RowData)) :
    PipeState → List PipeInput → PipeState × List Position
  | st, [] => (st, [])
  | st, inp :: rest =>
    match pipeline_iter dbRaw udf st inp with
    | Option.none => (st, [])
    | some (st2, ev) =>
      let r := pipeline_run dbRaw udf st2 rest
      (r.1, ev.toList ++ r.2)

end BasePipeline

/-- The item is a Commit. -/
def IsCommitItem (item : DtItem) : Prop :=
  ∃ x, item.dt_data = DtData.commit x

/-- The item is a Redis entry. -/
def IsRedisItem (item : DtItem) : Prop :=
  ∃ e, item.dt_data = DtData.redis e

/-- Position p is carried in the batch by a Commit item, or, in the raw
path, by a Redis entry: precisely the items that can set the batch commit
position. -/
def CommitLikePosIn (dbRaw : Bool) (data : List DtItem) (p : Position) : Prop :=
  ∃ item ∈ data, item.position = p ∧
    (IsCommitItem item ∨ (dbRaw = true ∧ IsRedisItem item))

/-- A batch commit position in the raw path originates in a Commit item or
a Redis entry of the batch. -/
theorem fetch_raw_commit_src :
    ∀ (data : List DtItem) (st : FetchRawState) (q : Position),
      (data.foldl BasePipeline.fetch_raw_step st).last_commit_position = some q →
      st.last_commit_position = some q ∨
        ∃ item ∈ data, item.position = q ∧ (IsCommitItem item ∨ IsRedisItem item) := by
  intro data
  induction data with
  | nil =>
    intro st q h
    exact Or.inl h
  | cons i rest ih =>
    intro st q h
    obtain ⟨idd, ipos⟩ := i
    cases ih (BasePipeline.fetch_raw_step st ⟨idd, ipos⟩) q h with
    | inr hex =>
      obtain ⟨item, hm, hit⟩ := hex
      exact Or.inr ⟨item, List.mem_cons_of_mem _ hm, hit⟩
    | inl h2 =>
      cases idd with
      | commit x =>
        simp [BasePipeline.fetch_raw_step] at h2
        exact Or.inr ⟨⟨DtData.commit x, ipos⟩, List.mem_cons_self _ _,
          by simpa using h2, Or.inl ⟨x, rfl⟩⟩
      | redis e =>
        cases hc : (!e.is_raw && eqIgnoreAsciiCase e.cmd "ping") with
        | true =>
          simp [BasePipeline.fetch_raw_step, hc] at h2
          exact Or.inr ⟨⟨DtData.redis e, ipos⟩, List.mem_cons_self _ _,
            by simpa using h2, Or.inr ⟨e, rfl⟩⟩
        | false =>
          simp [BasePipeline.fetch_raw_step, hc] at h2
          exact Or.inr ⟨⟨DtData.redis e, ipos⟩, List.mem_cons_self _ _,
            by simpa using h2, Or.inr ⟨e, rfl⟩⟩
      | dml r =>
        exact Or.inl (by simpa [BasePipeline.fetch_raw_step] using h2)
      | ddl d =>
        exact Or.inl (by simpa [BasePipeline.fetch_raw_step] using h2)
      | begin =>
        exact Or.inl (by simpa [BasePipeline.fetch_raw_step] using h2)

/-- A batch commit position in the dml path originates in a Commit item of
the batch. -/
theorem fetch_dml_commit_src (udf : Option (RowData → RowData)) :
    ∀ (data : List DtItem) (st : FetchDmlState) (q : Position),
      (data.foldl (BasePipeline.fetch_dml_step udf) st).last_commit_position = some q →
      st.last_commit_position = some q ∨
        ∃ item ∈ data, item.position = q ∧ IsCommitItem item := by
  intro data
  induction data with
  | nil =>
    intro st q h
    exact Or.inl h
  | cons i rest ih =>
    intro st q h
    obtain ⟨idd, ipos⟩ := i
    cases ih (BasePipeline.fetch_dml_step udf st ⟨idd, ipos⟩) q h with
    | inr hex =>
      obtain ⟨item, hm, hit⟩ := hex
      exact Or.inr ⟨item, List.mem_cons_of_mem _ hm, hit⟩
    | inl h2 =>
      cases idd with
      | commit x =>
        simp [BasePipeline.fetch_dml_step] at h2
        exact Or.inr ⟨⟨DtData.commit x, ipos⟩, List.mem_cons_self _ _,
          by simpa using h2, x, rfl⟩
      | dml r =>
        exact Or.inl (by simpa [BasePipeline.fetch_dml_step] using h2)
      | ddl d =>
        exact Or.inl (by simpa [BasePipeline.fetch_dml_step] using h2)
      | begin =>
        exact Or.inl (by simpa [BasePipeline.fetch_dml_step] using h2)
      | redis e =>
        exact Or.inl (by simpa [BasePipeline.fetch_dml_step] using h2)

/-- A batch commit position in the ddl path originates in a Commit item of
the batch. -/
theorem fetch_ddl_commit_src :
    ∀ (data : List DtItem) (st : FetchDdlState) (q : Position),
      (data.foldl BasePipeline.fetch_ddl_step st).last_commit_position = some q →
      st.last_commit_position = some q ∨
        ∃ item ∈ data, item.position = q ∧ IsCommitItem item := by
  intro data
  induction data with
  | nil =>
    intro st q h
    exact Or.inl h
  | cons i rest ih =>
    intro st q h
    obtain ⟨idd, ipos⟩ := i
    cases ih (BasePipeline.fetch_ddl_step st ⟨idd, ipos⟩) q h with
    | inr hex =>
      obtain ⟨item, hm, hit⟩ := hex
      exact Or.inr ⟨item, List.mem_cons_of_mem _ hm, hit⟩
    | inl h2 =>
      cases idd with
      | commit x =>
        simp [BasePipeline.fetch_ddl_step] at h2
        exact Or.inr ⟨⟨DtData.commit x, ipos⟩, List.mem_cons_self _ _,
          by simpa using h2, x, rfl⟩
      | dml r =>
        exact Or.inl (by simpa [BasePipeline.fetch_ddl_step] using h2)
      | ddl d =>
        exact Or.inl (by simpa [BasePipeline.fetch_ddl_step] using h2)
      | begin =>
        exact Or.inl (by simpa [BasePipeline.fetch_ddl_step] using h2)
      | redis e =>
        exact Or.inl (by simpa [BasePipeline.fetch_ddl_step] using h2)

/-- The commit position a batch produces always belongs to a commit-like
item of the batch. -/
theorem batch_positions_commit_src (dbRaw : Bool)
    (udf : Option (RowData → RowData)) (data : List DtItem) (q : Position)
    (h : (BasePipeline.batch_positions dbRaw udf data).2.2 = some q) :
    CommitLikePosIn dbRaw data q := by
  cases dbRaw with
  | true =>
    simp only [BasePipeline.batch_positions, if_pos] at h
    cases fetch_raw_commit_src data _ q h with
    | inl h2 => exact absurd h2 (by simp)
    | inr hex =>
      obtain ⟨item, hm, hpos, hkind⟩ := hex
      cases hkind with
      | inl hcom => exact ⟨item, hm, hpos, Or.inl hcom⟩
      | inr hred => exact ⟨item, hm, hpos, Or.inr ⟨rfl, hred⟩⟩
  | false =>
    simp only [BasePipeline.batch_positions, Bool.false_eq_true, if_false] at h
    by_cases hddl : ((data.head?.map DtItem.is_ddl).getD false) = true
    · rw [if_pos hddl] at h
      cases fetch_ddl_commit_src data _ q h with
      | inl h2 => exact absurd h2 (by simp)
      | inr hex =>
        obtain ⟨item, hm, hpos, hcom⟩ := hex
        exact ⟨item, hm, hpos, Or.inl hcom⟩
    · rw [if_neg hddl] at h
      cases fetch_dml_commit_src udf data _ q h with
      | inl h2 => exact absurd h2 (by simp)
      | inr hex =>
        obtain ⟨item, hm, hpos, hcom⟩ := hex
        exact ⟨item, hm, hpos, Or.inl hcom⟩

/-- The three outcomes of record_checkpoint: interval not elapsed, elapsed
with no commit position, elapsed with a commit position to write. -/
theorem record_checkpoint_cases (st : PipeState) (e : Bool) :
    (e = false ∧ BasePipeline.record_checkpoint st e = (st, Option.none)) ∨
    (e = true ∧ st.last_commit_position = Option.none ∧
      BasePipeline.record_checkpoint st e = (st, Option.none)) ∨
    (∃ p, e = true ∧ st.last_commit_position = some p ∧
      BasePipeline.record_checkpoint st e =
        ({ st with checkpoint_position := p }, some p)) := by
  cases e with
  | false =>
    exact Or.inl ⟨rfl, by simp [BasePipeline.record_checkpoint]⟩
  | true =>
    cases h : st.last_commit_position with
    | none =>
      exact Or.inr (Or.inl ⟨rfl, rfl, by simp [BasePipeline.record_checkpoint, h]⟩)
    | some p =>
      exact Or.inr (Or.inr ⟨p, rfl, rfl, by simp [BasePipeline.record_checkpoint, h]⟩)

/-- What one successful pipeline iteration guarantees: a write event means
the interval elapsed and the written value is the commit local of the
updated state; no write leaves the syncer untouched; the commit local
either survives from before the batch or is the batch commit position. -/
theorem pipeline_iter_spec (dbRaw : Bool) (udf : Option (RowData → RowData))
    (st : PipeState) (inp : PipeInput) (st2 : PipeState) (ev : Option Position)
    (h : BasePipeline.pipeline_iter dbRaw udf st inp = some (st2, ev)) :
    (∀ p, ev = some p → inp.checkpoint_elapsed = true ∧
      st2.last_commit_position = some p ∧ st2.checkpoint_position = p) ∧
    (ev = Option.none → st2.checkpoint_position = st.checkpoint_position) ∧
    (∀ q, st2.last_commit_position = some q →
      st.last_commit_position = some q ∨
        (BasePipeline.batch_positions dbRaw udf inp.drained).2.2 = some q) := by
  cases hemp : inp.drained.isEmpty with
  | true =>
    rw [BasePipeline.pipeline_iter, if_pos hemp] at h
    have hrec := Option.some.inj h
    rcases record_checkpoint_cases st inp.checkpoint_elapsed with
      ⟨he, hr⟩ | ⟨he, hn, hr⟩ | ⟨p0, he, hsome, hr⟩
    · rw [hr] at hrec
      obtain ⟨h1, h2⟩ := Prod.mk.injEq .. ▸ hrec
      refine ⟨?_, ?_, ?_⟩
      · intro p hp
        rw [← h2] at hp
        exact absurd hp (by simp)
      · intro _
        rw [← h1]
      · intro q hq
        rw [← h1] at hq
        exact Or.inl hq
    · rw [hr] at hrec
      obtain ⟨h1, h2⟩ := Prod.mk.injEq .. ▸ hrec
      refine ⟨?_, ?_, ?_⟩
      · intro p hp
        rw [← h2] at hp
        exact absurd hp (by simp)
      · intro _
        rw [← h1]
      · intro q hq
        rw [← h1] at hq
        exact Or.inl hq
    · rw [hr] at hrec
      obtain ⟨h1, h2⟩ := Prod.mk.injEq .. ▸ hrec
      refine ⟨?_, ?_, ?_⟩
      · intro p hp
        rw [← h2] at hp
        have hpp : p0 = p := by simpa using hp
        subst hpp
        exact ⟨he, by rw [← h1]; exact hsome, by rw [← h1]⟩
      · intro hev
        rw [← h2] at hev
        exact absurd hev (by simp)
      · intro q hq
        rw [← h1] at hq
        exact Or.inl hq
  | false =>
    rw [BasePipeline.pipeline_iter, if_neg (by simp [hemp])] at h
    set t := BasePipeline.batch_positions dbRaw udf inp.drained with ht
    cases hsink : (decide (t.1 > 0) && !inp.sink_ok) with
    | true =>
      rw [if_pos hsink] at h
      exact absurd h (by simp)
    | false =>
      rw [if_neg (by simp [hsink])] at h
      set mid : PipeState :=
        { st with
          last_received_position := t.2.1,
          last_commit_position :=
            if (t.2.2).isSome then t.2.2 else st.last_commit_position } with hmid
      have hrec := Option.some.inj h
      have hmidlc : ∀ q, mid.last_commit_position = some q →
          st.last_commit_position = some q ∨ t.2.2 = some q := by
        intro q hq
        rw [hmid] at hq
        simp only at hq
        cases hs : (t.2.2).isSome with
        | true =>
          rw [if_pos (by rw [hs])] at hq
          exact Or.inr hq
        | false =>
          rw [if_neg (by rw [hs]; simp)] at hq
          exact Or.inl hq
      rcases record_checkpoint_cases mid inp.checkpoint_elapsed with
        ⟨he, hr⟩ | ⟨he, hn, hr⟩ | ⟨p0, he, hsome, hr⟩
      · rw [hr] at hrec
        obtain ⟨h1, h2⟩ := Prod.mk.injEq .. ▸ hrec
        refine ⟨?_, ?_, ?_⟩
        · intro p hp
          rw [← h2] at hp
          exact absurd hp (by simp)
        · intro _
          rw [← h1]
        · intro q hq
          rw [← h1] at hq
          exact hmidlc q hq
      · rw [hr] at hrec
        obtain ⟨h1, h2⟩ := Prod.mk.injEq .. ▸ hrec
        refine ⟨?_, ?_, ?_⟩
        · intro p hp
          rw [← h2] at hp
          exact absurd hp (by simp)
        · intro _
          rw [← h1]
        · intro q hq
          rw [← h1] at hq
          exact hmidlc q hq
      · rw [hr] at hrec
        obtain ⟨h1, h2⟩ := Prod.mk.injEq .. ▸ hrec
        refine ⟨?_, ?_, ?_⟩
        · intro p hp
          rw [← h2] at hp
          have hpp : p0 = p := by simpa using hp
          subst hpp
          exact ⟨he, by rw [← h1]; exact hsome, by rw [← h1]⟩
        · intro hev
          rw [← h2] at hev
          exact absurd hev (by simp)
        · intro q hq
          rw [← h1] at hq
          exact hmidlc q hq

/-- Every syncer write event of a run satisfies any predicate that holds
for the initial commit local and for every commit-like position of every
drained batch of the run. -/
theorem pipeline_run_events (dbRaw : Bool) (udf : Option (RowData → RowData))
    (C : Position → Prop) :
    ∀ (inputs : List PipeInput) (st : PipeState),
      (∀ q, st.last_commit_position = some q → C q) →
      (∀ inp ∈ inputs, ∀ q, CommitLikePosIn dbRaw inp.drained q → C q) →
      ∀ p ∈ (BasePipeline.pipeline_run dbRaw udf st inputs).2, C p := by
  intro inputs
  induction inputs with
  | nil =>
    intro st h1 h2 p hp
    simp [BasePipeline.pipeline_run] at hp
  | cons inp rest ih =>
    intro st h1 h2 p hp
    cases hiter : BasePipeline.pipeline_iter dbRaw udf st inp with
    | none =>
      rw [BasePipeline.pipeline_run, hiter] at hp
      exact absurd hp (by simp)
    | some pr =>
      obtain ⟨st2, ev⟩ := pr
      have hspec := pipeline_iter_spec dbRaw udf st inp st2 ev hiter
      have hlc2 : ∀ q, st2.last_commit_position = some q → C q := by
        intro q hq
        cases hspec.2.2 q hq with
        | inl hold => exact h1 q hold
        | inr hbatch =>
          exact h2 inp (List.mem_cons_self _ _) q
            (batch_positions_commit_src dbRaw udf inp.drained q hbatch)
      rw [BasePipeline.pipeline_run, hiter] at hp
      rcases List.mem_append.mp hp with hp1 | hp2
      · cases ev with
        | none => exact absurd hp1 (by simp)
        | some p0 =>
          have hp0 : p = p0 := by simpa using hp1
          subst hp0
          exact hlc2 p (hspec.1 p rfl).2.1
      · exact ih st2 hlc2 (fun i hi => h2 i (List.mem_cons_of_mem _ hi)) p hp2

/-- A Redis position for concrete pipeline runs. -/
def redisPos : Position := Position.redis "r1" 42

/-- A slotted, raw Redis entry for concrete pipeline runs. -/
def entrySetA : RedisEntry := { cmd := "SET", keys := ["a"], is_raw := true }

/-- The pipeline state at the start of a run. -/
def pipeSt0 : PipeState :=
  { last_received_position := Option.none, last_commit_position := Option.none,
    checkpoint_position := Position.none }

/-- A raw-path iteration input: one Redis entry, sink succeeds, checkpoint
interval elapsed. -/
def pipeInpRedis : PipeInput :=
  { drained := [⟨DtData.redis entrySetA, redisPos⟩], sink_ok := true,
    checkpoint_elapsed := true }

/-- The item is a Commit, decidably. -/
def isCommitItemB (item : DtItem) : Bool :=
  match item.dt_data with
  | DtData.commit _ => true
  | _ => false

/-- Claim C3, counterexample: in the raw path a batch holding one Redis
entry and no Commit at all still moves the syncer position to that
entry's position (fetch_raw treats every Redis entry as a commit
position), refuting that only a Commit item position is ever written. -/
theorem c3_counterexample :
    BasePipeline.pipeline_iter true Option.none pipeSt0 pipeInpRedis =
      some ({ last_received_position := some redisPos,
              last_commit_position := some redisPos,
              checkpoint_position := redisPos }, some redisPos) ∧
    pipeInpRedis.drained.all (fun item => !isCommitItemB item) = true ∧
    redisPos ≠ pipeSt0.checkpoint_position := by
  decide

/-- Claim C3, amended: the syncer position is written only when the
checkpoint interval has elapsed, and only ever to the current commit
local; a batch whose sinker calls fail aborts the iteration before any
position moves; the commit local only ever takes the position of a Commit
item of a drained batch — or, in the raw path, of a Redis entry — so every
value written in a run originates in such an item of a successfully sunk
batch. -/
theorem c3_checkpoint_discipline (dbRaw : Bool) (udf : Option (RowData → RowData)) :
    (∀ (st : PipeState) (inp : PipeInput) (st2 : PipeState) (ev : Option Position)
        (p : Position),
      BasePipeline.pipeline_iter dbRaw udf st inp = some (st2, ev) → ev = some p →
      inp.checkpoint_elapsed = true ∧ st2.last_commit_position = some p ∧
        st2.checkpoint_position = p) ∧
    (∀ (st : PipeState) (inp : PipeInput) (st2 : PipeState) (ev : Option Position),
      BasePipeline.pipeline_iter dbRaw udf st inp = some (st2, ev) →
      ev = Option.none → st2.checkpoint_position = st.checkpoint_position) ∧
    (∀ (st : PipeState) (inp : PipeInput),
      (BasePipeline.batch_positions dbRaw udf inp.drained).1 > 0 →
      inp.sink_ok = false → inp.drained.isEmpty = false →
      BasePipeline.pipeline_iter dbRaw udf st inp = Option.none) ∧
    (∀ (st : PipeState) (inp : PipeInput) (st2 : PipeState) (ev : Option Position)
        (q : Position),
      BasePipeline.pipeline_iter dbRaw udf st inp = some (st2, ev) →
      st2.last_commit_position = some q →
      st.last_commit_position = some q ∨ CommitLikePosIn dbRaw inp.drained q) ∧
    (∀ (inputs : List PipeInput) (st0 : PipeState),
      st0.last_commit_position = Option.none →
      ∀ p ∈ (BasePipeline.pipeline_run dbRaw udf st0 inputs).2,
        ∃ inp ∈ inputs, CommitLikePosIn dbRaw inp.drained p) := by
  refine ⟨?_, ?_, ?_, ?_, ?_⟩
  · intro st inp st2 ev p h hev
    exact (pipeline_iter_spec dbRaw udf st inp st2 ev h).1 p hev
  · intro st inp st2 ev h hev
    exact (pipeline_iter_spec dbRaw udf st inp st2 ev h).2.1 hev
  · intro st inp hcount hsink hne
    rw [BasePipeline.pipeline_iter, if_neg (by simp [hne])]
    simp [hsink, hcount]
  · intro st inp st2 ev q h hq
    cases (pipeline_iter_spec dbRaw udf st inp st2 ev h).2.2 q hq with
    | inl h2 => exact Or.inl h2
    | inr h2 =>
      exact Or.inr (batch_positions_commit_src dbRaw udf inp.drained q h2)
  · intro inputs st0 h0 p hp
    exact pipeline_run_events dbRaw udf
      (fun r => ∃ inp ∈ inputs, CommitLikePosIn dbRaw inp.drained r)
      inputs st0
      (fun q hq => absurd (h0 ▸ hq) (by simp))
      (fun inp hi q hq => ⟨inp, hi, hq⟩) p hp

/-- A PG position for the checkpoint witness. -/
def pgPos : Position := Position.pgCdc "0/10" "ts"

/-- A dml-path iteration input holding one Commit, sink ok, interval
elapsed. -/
def pipeInpCommit : PipeInput :=
  { drained := [⟨DtData.commit "x", pgPos⟩], sink_ok := true,
    checkpoint_elapsed := true }

/-- Witness for c3_checkpoint_discipline: the iteration on one Commit item
writes that position with the interval elapsed. -/
theorem c3_checkpoint_discipline_witness :
    pipeInpCommit.checkpoint_elapsed = true ∧
    ({ last_received_position := some pgPos, last_commit_position := some pgPos,
       checkpoint_position := pgPos } : PipeState).last_commit_position = some pgPos ∧
    ({ last_received_position := some pgPos, last_commit_position := some pgPos,
       checkpoint_position := pgPos } : PipeState).checkpoint_position = pgPos :=
  (c3_checkpoint_discipline false Option.none).1 pipeSt0 pipeInpCommit
    { last_received_position := some pgPos, last_commit_position := some pgPos,
      checkpoint_position := pgPos }
    (some pgPos) pgPos (by decide) rfl

/-- The raw dispatch data never holds a non-raw ping entry, whatever the
state already held of them. -/
theorem fetch_raw_no_ping_aux :
    ∀ (items : List DtItem) (st : FetchRawState),
      (∀ e : RedisEntry, isPingEntry e = true → DtData.redis e ∉ st.raw_data) →
      ∀ e : RedisEntry, isPingEntry e = true →
        DtData.redis e ∉ (items.foldl BasePipeline.fetch_raw_step st).raw_data := by
  intro items
  induction items with
  | nil =>
    intro st hinv e he
    exact hinv e he
  | cons i rest ih =>
    intro st hinv e he
    refine ih (BasePipeline.fetch_raw_step st i) ?_ e he
    intro e2 he2
    obtain ⟨idd, ipos⟩ := i
    cases idd with
    | commit x =>
      simpa [BasePipeline.fetch_raw_step] using hinv e2 he2
    | redis e3 =>
      cases hc : (!e3.is_raw && eqIgnoreAsciiCase e3.cmd "ping") with
      | true =>
        simpa [BasePipeline.fetch_raw_step, hc] using hinv e2 he2
      | false =>
        simp only [BasePipeline.fetch_raw_step, hc]
        intro hmem
        have hmem2 : DtData.redis e2 ∈ st.raw_data ∨ e2 = e3 := by
          simpa using hmem
        rcases hmem2 with hmem1 | he3
        · exact hinv e2 he2 hmem1
        · rw [he3, isPingEntry] at he2
          rw [he2] at hc
          exact absurd hc (by simp)
    | dml r =>
      simp only [BasePipeline.fetch_raw_step]
      intro hmem
      have hmem1 : DtData.redis e2 ∈ st.raw_data := by simpa using hmem
      exact hinv e2 he2 hmem1
    | ddl d =>
      simp only [BasePipeline.fetch_raw_step]
      intro hmem
      have hmem1 : DtData.redis e2 ∈ st.raw_data := by simpa using hmem
      exact hinv e2 he2 hmem1
    | begin =>
      simp only [BasePipeline.fetch_raw_step]
      intro hmem
      have hmem1 : DtData.redis e2 ∈ st.raw_data := by simpa using hmem
      exact hinv e2 he2 hmem1

/-- Claim C10: in the raw path every Redis entry advances both the
received and the commit position to the entry's position; a non-raw entry
whose command name is ping (ASCII-case-insensitively) is not dispatched
while every other entry is appended; hence the dispatched data of a whole
fetch never holds a non-raw ping entry. -/
theorem c10_raw_positions :
    (∀ (st : FetchRawState) (entry : RedisEntry) (pos : Position),
      (BasePipeline.fetch_raw_step st ⟨DtData.redis entry, pos⟩).last_received_position
          = some pos ∧
      (BasePipeline.fetch_raw_step st ⟨DtData.redis entry, pos⟩).last_commit_position
          = some pos ∧
      (BasePipeline.fetch_raw_step st ⟨DtData.redis entry, pos⟩).raw_data =
        (if isPingEntry entry then st.raw_data
         else st.raw_data ++ [DtData.redis entry])) ∧
    (∀ (items : List DtItem) (e : RedisEntry), isPingEntry e = true →
      DtData.redis e ∉ (BasePipeline.fetch_raw items).raw_data) := by
  constructor
  · intro st entry pos
    cases hc : (!entry.is_raw && eqIgnoreAsciiCase entry.cmd "ping") with
    | true =>
      refine ⟨?_, ?_, ?_⟩ <;>
        simp [BasePipeline.fetch_raw_step, hc, isPingEntry]
    | false =>
      refine ⟨?_, ?_, ?_⟩ <;>
        simp [BasePipeline.fetch_raw_step, hc, isPingEntry]
  · intro items e he
    exact fetch_raw_no_ping_aux items
      { raw_data := [], last_received_position := Option.none,
        last_commit_position := Option.none }
      (by intro e2 _; simp) e he

/-- A non-raw ping entry, upper case to exercise the case fold. -/
def entryPing : RedisEntry := { cmd := "PING", keys := [], is_raw := false }

/-- Witness for c10_raw_positions: the ping entry advances the received
position yet is absent from the dispatched data of a concrete fetch. -/
theorem c10_raw_positions_witness :
    (BasePipeline.fetch_raw_step
        { raw_data := [], last_received_position := Option.none,
          last_commit_position := Option.none }
        ⟨DtData.redis entryPing, redisPos⟩).last_received_position = some redisPos ∧
    DtData.redis entryPing ∉ (BasePipeline.fetch_raw
      [⟨DtData.redis entrySetA, redisPos⟩,
       ⟨DtData.redis entryPing, redisPos⟩]).raw_data :=
  ⟨(c10_raw_positions.1 _ entryPing redisPos).1,
   c10_raw_positions.2 _ entryPing (by decide)⟩

end ApeDts
